import Mathlib

/-!
Verification of the Mon translation relay server.

This file gives a shallow embedding of the repository's core logic:
vector math (dot product, magnitude, cosine similarity), the
embedding-backed retrieval of approved correction records, the top-K
ranking policy of the translate endpoint, prompt-section rendering,
the multi-model fallback invoker, the suggestion approval workflow and
the reindex sweep.  JavaScript numbers are modelled as real numbers for
the analytic vector-math claims and as rationals for the executable
retrieval pipeline; fallible external calls (embedding model,
generation model, document store) are modelled as explicit function
parameters returning `Option`.
-/

/-- A scored candidate of the translate endpoint: the spread
`{ ...item, score }` built from an approved suggestion record plus its
cosine-similarity score against the query embedding. -/
structure Scored where
  id : Nat
  original : String
  suggestion : String
  context : String
  embedding : List ℚ
  score : ℚ
deriving DecidableEq

/-- The similarity floor of the translate endpoint (`x.score > 0.3`). -/
def minScore : ℚ := 3 / 10

/-- The top-K bound of the translate endpoint (`const K = 5`). -/
def retrievalK : Nat := 5

/-- Descending-score order between scored candidates. -/
def scoreGE (a b : Scored) : Prop := b.score ≤ a.score

/-- Stable insertion of a candidate into a descending-sorted list,
modelling one step of `scored.sort((a, b) => b.score - a.score)`. -/
def insertDesc (x : Scored) : List Scored → List Scored
  | [] => [x]
  | y :: ys => if y.score ≤ x.score then x :: y :: ys else y :: insertDesc x ys

/-- Stable descending sort by score, the model of
`scored.sort((a, b) => b.score - a.score)`. -/
def sortByScoreDesc : List Scored → List Scored
  | [] => []
  | x :: xs => insertDesc x (sortByScoreDesc xs)

/-- The ranking policy of the translate endpoint:
`scored.sort(...).slice(0, K).filter((x) => x.score > 0.3)`. -/
def rankAndSelect (scored : List Scored) : List Scored :=
  ((sortByScoreDesc scored).take retrievalK).filter
    (fun x => decide (minScore < x.score))

theorem insertDesc_perm (x : Scored) (l : List Scored) :
    List.Perm (insertDesc x l) (x :: l) := by
  induction l with
  | nil => exact List.Perm.refl _
  | cons y ys ih =>
    simp only [insertDesc]
    split
    · exact List.Perm.refl _
    · exact (ih.cons y).trans (List.Perm.swap x y ys)

theorem sortByScoreDesc_perm (l : List Scored) :
    List.Perm (sortByScoreDesc l) l := by
  induction l with
  | nil => exact List.Perm.refl _
  | cons x xs ih =>
    exact (insertDesc_perm x (sortByScoreDesc xs)).trans (ih.cons x)

theorem insertDesc_pairwise (x : Scored) (l : List Scored)
    (h : l.Pairwise scoreGE) : (insertDesc x l).Pairwise scoreGE := by
  induction l with
  | nil => simp [insertDesc, scoreGE]
  | cons y ys ih =>
    rcases List.pairwise_cons.mp h with ⟨hy, hys⟩
    simp only [insertDesc]
    split
    case isTrue hle =>
      refine List.pairwise_cons.mpr ⟨?_, h⟩
      intro z hz
      rcases List.mem_cons.mp hz with rfl | hz
      · exact hle
      · exact le_trans (hy z hz) hle
    case isFalse hgt =>
      refine List.pairwise_cons.mpr ⟨?_, ih hys⟩
      intro z hz
      have hz' := (insertDesc_perm x ys).mem_iff.mp hz
      rcases List.mem_cons.mp hz' with rfl | hz'
      · exact le_of_lt (lt_of_not_le hgt)
      · exact hy z hz'

theorem sortByScoreDesc_pairwise (l : List Scored) :
    (sortByScoreDesc l).Pairwise scoreGE := by
  induction l with
  | nil => simp [sortByScoreDesc]
  | cons x xs ih => exact insertDesc_pairwise x (sortByScoreDesc xs) ih

/-- In a descending-sorted list whose above-threshold candidates number at
least `n`, the first `n` entries exist and all lie above the threshold. -/
theorem sorted_take_of_le_filter_length :
    ∀ (s : List Scored) (n : Nat), s.Pairwise scoreGE →
      n ≤ (s.filter (fun x => decide (minScore < x.score))).length →
      (s.take n).length = n ∧ ∀ x ∈ s.take n, minScore < x.score := by
  intro s
  induction s with
  | nil =>
    intro n _ hn
    simp only [List.filter_nil, List.length_nil, Nat.le_zero] at hn
    subst hn
    simp
  | cons a as ih =>
    intro n hp hn
    rcases List.pairwise_cons.mp hp with ⟨ha, has⟩
    cases n with
    | zero => simp
    | succ m =>
      by_cases hq : minScore < a.score
      · have hfil : (a :: as).filter (fun x => decide (minScore < x.score)) =
            a :: as.filter (fun x => decide (minScore < x.score)) := by
          simp [List.filter_cons, hq]
        rw [hfil] at hn
        simp only [List.length_cons] at hn
        obtain ⟨h1, h2⟩ := ih m has (Nat.le_of_succ_le_succ hn)
        refine ⟨by simp [List.take_succ_cons, h1], ?_⟩
        intro x hx
        rcases List.mem_cons.mp (by simpa [List.take_succ_cons] using hx) with rfl | hx'
        · exact hq
        · exact h2 x hx'
      · exfalso
        have hfil : (a :: as).filter (fun x => decide (minScore < x.score)) = [] := by
          rw [List.filter_eq_nil_iff]
          intro y hy
          rcases List.mem_cons.mp hy with rfl | hy
          · simpa using hq
          · have hya : y.score ≤ a.score := ha y hy
            have : ¬ minScore < y.score := fun hlt =>
              hq (lt_of_lt_of_le hlt hya)
            simpa using this
        rw [hfil] at hn
        simp at hn

/-- Claim C1 (corrected part): it is impossible for the retrieval to
return fewer than K records while more than K scored candidates lie
strictly above the threshold — after the descending sort, the top K
slots are then all above the threshold and survive the filter. -/
theorem C1_counterexample :
    ¬ ∃ scored : List Scored,
        retrievalK <
          (scored.filter (fun x => decide (minScore < x.score))).length ∧
        (rankAndSelect scored).length < retrievalK := by
  rintro ⟨l, hgt, hlt⟩
  have hperm := sortByScoreDesc_perm l
  have hsort := sortByScoreDesc_pairwise l
  have hflen :
      ((sortByScoreDesc l).filter (fun x => decide (minScore < x.score))).length =
        (l.filter (fun x => decide (minScore < x.score))).length :=
    (hperm.filter _).length_eq
  have h5 : retrievalK ≤
      ((sortByScoreDesc l).filter (fun x => decide (minScore < x.score))).length := by
    omega
  obtain ⟨hlen, hall⟩ :=
    sorted_take_of_le_filter_length (sortByScoreDesc l) retrievalK hsort h5
  have hself :
      ((sortByScoreDesc l).take retrievalK).filter
          (fun x => decide (minScore < x.score)) =
        (sortByScoreDesc l).take retrievalK := by
    refine List.filter_eq_self.mpr ?_
    intro x hx
    simpa using hall x hx
  have : (rankAndSelect l).length = retrievalK := by
    unfold rankAndSelect
    rw [hself, hlen]
  omega

/-- Claim C1 (amended): retrieval always returns a descending-ordered
list of at most `K = 5` candidates, each scoring strictly above
`minScore = 0.3`; and because the threshold filter runs after the top-K
truncation, fewer than K records can be returned even when more than K
approved candidates exist. -/
theorem C1_theorem :
    (∀ scored : List Scored,
        (rankAndSelect scored).Pairwise scoreGE ∧
        (rankAndSelect scored).length ≤ retrievalK ∧
        ∀ x ∈ rankAndSelect scored, minScore < x.score) ∧
    (∃ scored : List Scored,
        retrievalK < scored.length ∧
        (rankAndSelect scored).length < retrievalK) := by
  constructor
  · intro scored
    refine ⟨?_, ?_, ?_⟩
    · have hsub : List.Sublist (rankAndSelect scored) (sortByScoreDesc scored) :=
        (List.filter_sublist _).trans (List.take_sublist _ _)
      exact (sortByScoreDesc_pairwise scored).sublist hsub
    · calc (rankAndSelect scored).length
          ≤ ((sortByScoreDesc scored).take retrievalK).length :=
            (List.filter_sublist _).length_le
        _ ≤ retrievalK := by
            rw [List.length_take]; exact Nat.min_le_left _ _
    · intro x hx
      have := (List.mem_filter.mp hx).2
      simpa using this
  · refine ⟨[⟨0, "a", "x", "", [], 0⟩, ⟨1, "b", "x", "", [], 0⟩,
      ⟨2, "c", "x", "", [], 0⟩, ⟨3, "d", "x", "", [], 0⟩,
      ⟨4, "e", "x", "", [], 0⟩, ⟨5, "f", "x", "", [], 0⟩], by norm_num [retrievalK], ?_⟩
    norm_num [rankAndSelect, sortByScoreDesc, insertDesc, retrievalK, minScore,
      List.filter_cons]

/-- Witness for claim C1: on a concrete one-candidate list the retrieval
keeps the list ordered, bounded by K, and the surviving candidate scores
above the threshold. -/
theorem C1_witness :
    (rankAndSelect [⟨0, "a", "x", "", [], 1⟩]).length ≤ retrievalK ∧
    minScore < (⟨0, "a", "x", "", [], 1⟩ : Scored).score := by
  refine ⟨(C1_theorem.1 _).2.1, (C1_theorem.1 [⟨0, "a", "x", "", [], 1⟩]).2.2 _ ?_⟩
  norm_num [rankAndSelect, sortByScoreDesc, insertDesc, retrievalK, minScore,
    List.filter_cons]

/-- The padded dot product `dot(a, b)`: sum of elementwise products over
the shared prefix of length `min(len(a), len(b))`. -/
def dot : List ℝ → List ℝ → ℝ
  | [], _ => 0
  | _, [] => 0
  | a :: as, b :: bs => a * b + dot as bs

/-- The running sum `s += x * x` accumulated inside `magnitude(v)`. -/
def sumSq (v : List ℝ) : ℝ := (v.map (fun x => x * x)).sum

/-- The Euclidean norm `magnitude(v) = Math.sqrt(sum of squares)`. -/
noncomputable def magnitude (v : List ℝ) : ℝ := Real.sqrt (sumSq v)

/-- `cosineSimilarity(a, b)`: returns `0` when either magnitude is zero
(the `if (!ma || !mb) return 0` guard), otherwise
`dot(a, b) / (ma * mb)`. -/
noncomputable def cosineSimilarity (a b : List ℝ) : ℝ :=
  if magnitude a = 0 ∨ magnitude b = 0 then 0
  else dot a b / (magnitude a * magnitude b)

theorem sumSq_nonneg (v : List ℝ) : 0 ≤ sumSq v := by
  refine List.sum_nonneg ?_
  intro x hx
  rcases List.mem_map.mp hx with ⟨y, _, rfl⟩
  exact mul_self_nonneg y

theorem dot_self_eq_sumSq (v : List ℝ) : dot v v = sumSq v := by
  induction v with
  | nil => simp [dot, sumSq]
  | cons x xs ih => simp [dot, sumSq, List.map_cons, List.sum_cons, ih]

theorem sumSq_pos_of_mem_ne_zero {v : List ℝ} {x : ℝ}
    (hx : x ∈ v) (hx0 : x ≠ 0) : 0 < sumSq v := by
  induction v with
  | nil => cases hx
  | cons y ys ih =>
    rcases List.mem_cons.mp hx with rfl | hmem
    · have h1 : 0 < x * x := mul_self_pos.mpr hx0
      have h2 := sumSq_nonneg ys
      simp only [sumSq, List.map_cons, List.sum_cons] at *
      linarith
    · have hpos := ih hmem
      have h2 := mul_self_nonneg y
      simp only [sumSq, List.map_cons, List.sum_cons] at *
      linarith

theorem magnitude_eq_zero_iff (v : List ℝ) : magnitude v = 0 ↔ sumSq v = 0 := by
  unfold magnitude
  exact Real.sqrt_eq_zero (sumSq_nonneg v)

theorem magnitude_nonneg (v : List ℝ) : 0 ≤ magnitude v :=
  Real.sqrt_nonneg _

/-- Claim C2: `cosineSimilarity(v, v) = 1` for every vector with a
non-zero component, and the divide-by-zero guard sends any pairing with
a zero-magnitude vector to `0` instead of an undefined result. -/
theorem C2_theorem (v : List ℝ) :
    ((∃ x ∈ v, x ≠ 0) → cosineSimilarity v v = 1) ∧
    (∀ w : List ℝ, magnitude w = 0 →
      cosineSimilarity v w = 0 ∧ cosineSimilarity w v = 0) := by
  constructor
  · rintro ⟨x, hx, hx0⟩
    have hpos : 0 < sumSq v := sumSq_pos_of_mem_ne_zero hx hx0
    have hm : magnitude v ≠ 0 := by
      rw [Ne, magnitude_eq_zero_iff]
      exact ne_of_gt hpos
    unfold cosineSimilarity
    rw [if_neg (by push_neg; exact ⟨hm, hm⟩)]
    have hmm : magnitude v * magnitude v = sumSq v := by
      unfold magnitude
      exact Real.mul_self_sqrt (sumSq_nonneg v)
    rw [dot_self_eq_sumSq, hmm]
    exact div_self (ne_of_gt hpos)
  · intro w hw
    constructor
    · unfold cosineSimilarity
      rw [if_pos (Or.inr hw)]
    · unfold cosineSimilarity
      rw [if_pos (Or.inl hw)]

/-- Witness for claim C2 at the one-component vector `[1]` and the
zero vector `[0]`. -/
theorem C2_witness :
    cosineSimilarity [(1 : ℝ)] [(1 : ℝ)] = 1 ∧
    cosineSimilarity [(1 : ℝ)] [(0 : ℝ)] = 0 :=
  ⟨(C2_theorem [1]).1 ⟨1, by simp, one_ne_zero⟩,
   ((C2_theorem [1]).2 [0] (by simp [magnitude, sumSq])).1⟩

/-- Cauchy–Schwarz for the prefix-truncated dot product: the square of
`dot(a, b)` is bounded by the product of the full sums of squares, even
when the vectors have different lengths. -/
theorem dot_sq_le_sumSq_mul (a : List ℝ) :
    ∀ b : List ℝ, (dot a b) ^ 2 ≤ sumSq a * sumSq b := by
  induction a with
  | nil =>
    intro b
    simp [dot, sumSq]
  | cons x as ih =>
    intro b
    cases b with
    | nil => simp [dot, sumSq]
    | cons y bs =>
      have h := ih bs
      have hsa : 0 ≤ sumSq as := sumSq_nonneg as
      have hsb : 0 ≤ sumSq bs := sumSq_nonneg bs
      simp only [dot, sumSq, List.map_cons, List.sum_cons] at h hsa hsb ⊢
      rcases eq_or_lt_of_le hsa with heq | hlt
      · have hD2 : (dot as bs) ^ 2 ≤ 0 := by
          rw [← heq] at h
          simpa using h
        have hD0 : dot as bs = 0 := by
          have := sq_nonneg (dot as bs)
          nlinarith
        rw [hD0, ← heq]
        nlinarith [mul_nonneg (mul_self_nonneg x) hsb, mul_self_nonneg y,
          mul_self_nonneg x]
      · have key : ((as.map (fun t => t * t)).sum) *
              ((x * x + (as.map (fun t => t * t)).sum) *
                (y * y + (bs.map (fun t => t * t)).sum) -
               (x * y + dot as bs) ^ 2) =
            (x * dot as bs - y * (as.map (fun t => t * t)).sum) ^ 2 +
              (x * x + (as.map (fun t => t * t)).sum) *
                ((as.map (fun t => t * t)).sum *
                  (bs.map (fun t => t * t)).sum - (dot as bs) ^ 2) := by
          ring
        nlinarith [sq_nonneg (x * dot as bs - y * (as.map (fun t => t * t)).sum),
          mul_nonneg (by nlinarith [mul_self_nonneg x] :
              (0:ℝ) ≤ x * x + (as.map (fun t => t * t)).sum)
            (by nlinarith : (0:ℝ) ≤ (as.map (fun t => t * t)).sum *
              (bs.map (fun t => t * t)).sum - (dot as bs) ^ 2)]

/-- Claim C7: every cosine-similarity score lies in `[-1, 1]`, also for
vectors of different lengths, where `dot` sums only over the shared
prefix while the magnitudes range over the full vectors. -/
theorem C7_theorem (a b : List ℝ) :
    -1 ≤ cosineSimilarity a b ∧ cosineSimilarity a b ≤ 1 := by
  unfold cosineSimilarity
  split
  case isTrue h => norm_num
  case isFalse h =>
    push_neg at h
    obtain ⟨ha, hb⟩ := h
    have hma : 0 < magnitude a := lt_of_le_of_ne (magnitude_nonneg a) (Ne.symm ha)
    have hmb : 0 < magnitude b := lt_of_le_of_ne (magnitude_nonneg b) (Ne.symm hb)
    have hcs := dot_sq_le_sumSq_mul a b
    have habs : |dot a b| ≤ magnitude a * magnitude b := by
      have h1 : Real.sqrt ((dot a b) ^ 2) ≤ Real.sqrt (sumSq a * sumSq b) :=
        Real.sqrt_le_sqrt hcs
      rw [Real.sqrt_sq_eq_abs, Real.sqrt_mul (sumSq_nonneg a)] at h1
      simpa [magnitude] using h1
    have hpos : 0 < magnitude a * magnitude b := mul_pos hma hmb
    rw [abs_le] at habs
    constructor
    · rw [le_div_iff₀ hpos]
      linarith [habs.1]
    · rw [div_le_one hpos]
      exact habs.2

/-- Witness for claim C7 at the concrete pair `[1]`, `[1, 2]`. -/
theorem C7_witness :
    -1 ≤ cosineSimilarity [(1 : ℝ)] [(1 : ℝ), (2 : ℝ)] ∧
    cosineSimilarity [(1 : ℝ)] [(1 : ℝ), (2 : ℝ)] ≤ 1 :=
  C7_theorem [1] [1, 2]

/-- The structured translation result (`TranslationResponse`): required
`source_language` and `translation`, optional `romanization` and
`notes`. -/
structure TranslationResponse where
  source_language : String
  translation : String
  romanization : Option String
  notes : Option String
deriving DecidableEq

/-- The terminal error thrown after the model list is exhausted. -/
def unavailableMessage : String :=
  "Translation service is currently unavailable. Please try again later."

/-- One `tryModel(modelName)` attempt of `sendMessageToGemini`: the
external generate call (`none` models a raised error or an absent text
field), the `if (!text) throw` emptiness check, and the `JSON.parse` of
the returned text (`none` models a parse exception); any of the three
failures surfaces as `none` and is caught by the fallback loop. -/
def tryModel (gen : String → Option String)
    (parse : String → Option TranslationResponse)
    (modelName : String) : Option TranslationResponse :=
  match gen modelName with
  | none => none
  | some text => if text = "" then none else parse text

/-- The fallback loop of `sendMessageToGemini`: try each model in order,
return the first successful parsed result, and throw the terminal
"service unavailable" error when every model failed. -/
def sendMessageToGemini (gen : String → Option String)
    (parse : String → Option TranslationResponse) :
    List String → Except String TranslationResponse
  | [] => Except.error unavailableMessage
  | m :: rest =>
    match tryModel gen parse m with
    | some r => Except.ok r
    | none => sendMessageToGemini gen parse rest

/-- Claim C3: the invoker advances past a model whose attempt fails,
stops at the first success with that model's parsed result, fails with
the "service unavailable" error exactly when every model fails, and no
other fatal outcome exists. -/
theorem C3_theorem (gen : String → Option String)
    (parse : String → Option TranslationResponse) :
    (∀ m rest, tryModel gen parse m = none →
        sendMessageToGemini gen parse (m :: rest) =
          sendMessageToGemini gen parse rest) ∧
    (∀ m rest r, tryModel gen parse m = some r →
        sendMessageToGemini gen parse (m :: rest) = Except.ok r) ∧
    (∀ models, (∀ m ∈ models, tryModel gen parse m = none) →
        sendMessageToGemini gen parse models = Except.error unavailableMessage) ∧
    (∀ models e, sendMessageToGemini gen parse models = Except.error e →
        e = unavailableMessage ∧ ∀ m ∈ models, tryModel gen parse m = none) := by
  refine ⟨?_, ?_, ?_, ?_⟩
  · intro m rest h
    simp [sendMessageToGemini, h]
  · intro m rest r h
    simp [sendMessageToGemini, h]
  · intro models hall
    induction models with
    | nil => rfl
    | cons m rest ih =>
      have hm := hall m (List.mem_cons_self m rest)
      simp only [sendMessageToGemini, hm]
      exact ih (fun x hx => hall x (List.mem_cons_of_mem m hx))
  · intro models
    induction models with
    | nil =>
      intro e he
      refine ⟨?_, by simp⟩
      have : unavailableMessage = e := by simpa [sendMessageToGemini] using he
      exact this.symm
    | cons m rest ih =>
      intro e he
      simp only [sendMessageToGemini] at he
      cases htm : tryModel gen parse m with
      | some r => rw [htm] at he; cases he
      | none =>
        rw [htm] at he
        obtain ⟨he1, he2⟩ := ih e he
        refine ⟨he1, ?_⟩
        intro x hx
        rcases List.mem_cons.mp hx with rfl | hx
        · exact htm
        · exact he2 x hx

/-- Witness for claim C3: with a generate function that always fails,
the source's model list is exhausted and the terminal error is
returned. -/
theorem C3_witness :
    sendMessageToGemini (fun _ => none) (fun _ => none)
        ["gemini-3-pro-preview", "gemini-3-pro", "gemini-2.5-pro"] =
      Except.error unavailableMessage :=
  (C3_theorem (fun _ => none) (fun _ => none)).2.2.1 _ (fun _ _ => rfl)

/-- The fields of the JSON value parsed from the model output; each may
be absent in the parsed object. -/
structure ParsedJson where
  source_language : Option String
  translation : Option String
  romanization : Option String
  notes : Option String
deriving DecidableEq

/-- The API response JSON of `/api/translate`. -/
structure ApiResponse where
  source_language : String
  translation : String
  romanization : Option String
  notes : Option String
deriving DecidableEq

/-- JavaScript string falsiness for an optional field: absent or
empty. -/
def jsStrFalsy : Option String → Bool
  | none => true
  | some s => decide (s = "")

/-- The `x || d` fallback of the translate endpoint response building. -/
def orElseStr (x : Option String) (d : String) : String :=
  if jsStrFalsy x then d else x.getD ""

/-- The response step of `/api/translate` after generation: the
`if (!rawText)` 500 guard, the `JSON.parse` attempt (`none` models a
parse exception), the degraded raw-text response on parse failure, and
the field-defaulted response on success. -/
def respondTranslate (parse : String → Option ParsedJson)
    (raw : Option String) : Except String ApiResponse :=
  match raw with
  | none => Except.error "Empty output from Gemini"
  | some t =>
    if t = "" then Except.error "Empty output from Gemini"
    else
      match parse t with
      | none =>
        Except.ok { source_language := "unknown", translation := t,
                    romanization := none, notes := none }
      | some p =>
        Except.ok { source_language := orElseStr p.source_language "unknown",
                    translation := orElseStr p.translation "",
                    romanization := p.romanization, notes := p.notes }

/-- Claim C4: whenever the model output text is non-empty but fails to
parse as JSON, the endpoint still answers successfully with
`source_language = "unknown"` and the raw text as translation; the
parse failure is never surfaced as an error. -/
theorem C4_theorem (parse : String → Option ParsedJson) (raw : String)
    (hne : raw ≠ "") (hfail : parse raw = none) :
    respondTranslate parse (some raw) =
      Except.ok { source_language := "unknown", translation := raw,
                  romanization := none, notes := none } := by
  simp [respondTranslate, hne, hfail]

/-- Witness for claim C4 at the malformed output `"not json"`. -/
theorem C4_witness :
    respondTranslate (fun _ => none) (some "not json") =
      Except.ok { source_language := "unknown", translation := "not json",
                  romanization := none, notes := none } :=
  C4_theorem (fun _ => none) "not json" (by decide) rfl

/-- A document of the `suggestions` collection as read by the server:
text fields may be absent, the embedding may be absent or empty. -/
structure SuggestionDoc where
  id : Nat
  original : Option String
  suggestion : Option String
  context : Option String
  status : String
  embedding : Option (List ℚ)
deriving DecidableEq

/-- A suggestion admitted to the ranking pass: the object pushed onto
`suggestions` by `getApprovedSuggestionsWithEmbeddings`. -/
structure RankedSuggestion where
  id : Nat
  original : String
  suggestion : String
  context : String
  embedding : List ℚ
deriving DecidableEq

/-- `embedText(text)`: returns `null` for an absent, empty or
whitespace-only input (`if (!text || !text.trim()) return null`),
otherwise defers to the external embedding call, which may itself
return `null` on upstream failure. -/
def embedText (embedApi : String → Option (List ℚ)) :
    Option String → Option (List ℚ)
  | none => none
  | some t => if t.trim = "" then none else embedApi t

/-- The check `!embedding || !Array.isArray(embedding) ||
embedding.length === 0` deciding whether a stored embedding must be
(re)computed. -/
def needsEmbedding : Option (List ℚ) → Bool
  | none => true
  | some [] => true
  | some (_ :: _) => false

/-- One loop iteration of `getApprovedSuggestionsWithEmbeddings` on a
document: only approved documents are in the snapshot; documents with a
falsy `original` or `suggestion` are skipped; a missing or empty
embedding is lazily computed and persisted onto the document; documents
whose embedding cannot be computed are skipped without modification. -/
def ensureDoc (embedApi : String → Option (List ℚ)) (d : SuggestionDoc) :
    Option RankedSuggestion × SuggestionDoc :=
  if d.status = "approved" then
    match d.original, d.suggestion with
    | some o, some s =>
      if o = "" ∨ s = "" then (none, d)
      else if needsEmbedding d.embedding then
        match embedText embedApi (some o) with
        | some emb =>
          (some ⟨d.id, o, s, d.context.getD "", emb⟩,
           { d with embedding := some emb })
        | none => (none, d)
      else (some ⟨d.id, o, s, d.context.getD "", d.embedding.getD []⟩, d)
    | _, _ => (none, d)
  else (none, d)

/-- `getApprovedSuggestionsWithEmbeddings` over the whole store: collects
the suggestions admitted to ranking and threads the per-document
embedding updates back into the store. -/
def getApprovedSuggestionsWithEmbeddings
    (embedApi : String → Option (List ℚ)) :
    List SuggestionDoc → List RankedSuggestion × List SuggestionDoc
  | [] => ([], [])
  | d :: ds =>
    ((match (ensureDoc embedApi d).1 with
      | some s => s :: (getApprovedSuggestionsWithEmbeddings embedApi ds).1
      | none => (getApprovedSuggestionsWithEmbeddings embedApi ds).1),
     (ensureDoc embedApi d).2 ::
       (getApprovedSuggestionsWithEmbeddings embedApi ds).2)

theorem ensureDoc_preserves (embedApi : String → Option (List ℚ))
    (d : SuggestionDoc) :
    (ensureDoc embedApi d).2.id = d.id ∧
    (ensureDoc embedApi d).2.original = d.original ∧
    (ensureDoc embedApi d).2.suggestion = d.suggestion ∧
    (ensureDoc embedApi d).2.context = d.context ∧
    (ensureDoc embedApi d).2.status = d.status := by
  unfold ensureDoc
  repeat' split
  all_goals simp

theorem ensureDoc_some_wellformed (embedApi : String → Option (List ℚ))
    (d : SuggestionDoc) (s : RankedSuggestion) (d' : SuggestionDoc)
    (h : ensureDoc embedApi d = (some s, d')) :
    s.original ≠ "" ∧ s.suggestion ≠ "" := by
  unfold ensureDoc at h
  repeat' split at h
  all_goals simp only [Prod.mk.injEq] at h
  all_goals obtain ⟨h1, h2⟩ := h
  all_goals first
    | exact Option.noConfusion h1
    | (simp only [Option.some.injEq] at h1; subst h1; simp_all)

/-- Claim C5: every suggestion admitted to the ranking pass has a
non-empty original and suggestion (and, by construction, an embedding);
skipped documents are never deleted — the store keeps the same documents
in order, with every field except the lazily written embedding
unchanged. -/
theorem C5_theorem (embedApi : String → Option (List ℚ))
    (store : List SuggestionDoc) :
    (∀ s ∈ (getApprovedSuggestionsWithEmbeddings embedApi store).1,
        s.original ≠ "" ∧ s.suggestion ≠ "") ∧
    List.Forall₂ (fun d d' =>
        d'.id = d.id ∧ d'.original = d.original ∧
        d'.suggestion = d.suggestion ∧ d'.context = d.context ∧
        d'.status = d.status)
      store (getApprovedSuggestionsWithEmbeddings embedApi store).2 := by
  induction store with
  | nil =>
    constructor
    · intro s hs
      cases hs
    · exact List.Forall₂.nil
  | cons d ds ih =>
    obtain ⟨ih1, ih2⟩ := ih
    constructor
    · intro s hs
      simp only [getApprovedSuggestionsWithEmbeddings] at hs
      cases hp : (ensureDoc embedApi d).1 with
      | none =>
        rw [hp] at hs
        exact ih1 s hs
      | some s' =>
        rw [hp] at hs
        rcases List.mem_cons.mp hs with rfl | hs'
        · exact ensureDoc_some_wellformed embedApi d s
            (ensureDoc embedApi d).2 (by rw [← hp])
        · exact ih1 s hs'
    · simp only [getApprovedSuggestionsWithEmbeddings]
      exact List.Forall₂.cons (ensureDoc_preserves embedApi d) ih2

/-- Witness for claim C5: a concrete approved document with a stored
embedding is ranked with its non-empty fields. -/
theorem C5_witness :
    ((⟨0, "hi", "yo", "", [(1 : ℚ)]⟩ : RankedSuggestion).original ≠ "" ∧
     (⟨0, "hi", "yo", "", [(1 : ℚ)]⟩ : RankedSuggestion).suggestion ≠ "") :=
  (C5_theorem (fun _ => none)
      [⟨0, some "hi", some "yo", none, "approved", some [(1 : ℚ)]⟩]).1 _
    (by simp [getApprovedSuggestionsWithEmbeddings, ensureDoc, needsEmbedding])

/-- The base system instruction of the server (section 6 of
`server.js`). -/
def baseSystemInstruction : String :=
  "\nYou are \"Ramanya,\" an expert AI translator specializing in the Mon language (ISO 639-3: mnw).\nYou have deep knowledge of Mon grammar, vocabulary, and cultural nuances.\n\n### MON LANGUAGE PRIMER (STRICT RULES):\n- Script: Use standard Myanmar script for Mon.\n- Question: end with \"ရော?\" or \"ဟာ?\"\n- Statement: end with \"ရ။\"\n- Past: \"တုဲ\"\n- Future: \"ရောင်\"\n- Continuous: \"မံင်\"\n\n### TRANSLATION INSTRUCTIONS:\n\nIF INPUT IS ENGLISH:\n1. Translate into formal, written Mon (Unicode).\n2. Use polite, natural tone.\n\nIF INPUT IS MON:\n1. Translate into natural, fluent English.\n\nYou must always respond with valid JSON:\n\x7b\n  \"source_language\": \"English\" | \"Mon\" | \"...\",\n  \"translation\": \"...\"\n\x7d\n"

/-- One numbered line of the relevant-examples section
(`topK.forEach((item, idx) => ...)`). -/
def renderExampleLine (idx : Nat) (it : Scored) : String :=
  toString (idx + 1) ++ ". When the user input is \"" ++ it.original ++
    "\", the correct translation must be \"" ++ it.suggestion ++ "\"." ++
    (if it.context = "" then "" else " Context: " ++ it.context) ++ "\n"

/-- The relevant-examples block appended to the system instruction when
`topK.length > 0`, empty otherwise. -/
def examplesSection (topK : List Scored) : String :=
  if 0 < topK.length then
    "\n\n### RELEVANT USER-APPROVED EXAMPLES:\n" ++
      String.join (topK.enum.map (fun p => renderExampleLine p.1 p.2))
  else ""

/-- The scoring map of the translate endpoint:
`approved.map((item) => ({ ...item, score: cosineSimilarity(...) }))`,
with the similarity function passed explicitly. -/
def scoreApproved (sim : List ℚ → List ℚ → ℚ) (q : List ℚ)
    (approved : List RankedSuggestion) : List Scored :=
  approved.map (fun it =>
    ⟨it.id, it.original, it.suggestion, it.context, it.embedding,
     sim q it.embedding⟩)

/-- The retrieval phase of `/api/translate`: embed the message; when the
query embedding is unavailable no approved record is loaded, scored or
ranked and the examples text stays empty; otherwise load, score, rank
and render the top-K block. -/
def translateRetrieve (embedApi : String → Option (List ℚ))
    (sim : List ℚ → List ℚ → ℚ) (store : List SuggestionDoc)
    (message : String) : List Scored × String :=
  match embedText embedApi (some message) with
  | none => ([], "")
  | some q =>
    if 0 < (getApprovedSuggestionsWithEmbeddings embedApi store).1.length then
      (rankAndSelect (scoreApproved sim q
          (getApprovedSuggestionsWithEmbeddings embedApi store).1),
       examplesSection (rankAndSelect (scoreApproved sim q
          (getApprovedSuggestionsWithEmbeddings embedApi store).1)))
    else ([], "")

/-- The final system instruction of `/api/translate`:
`BASE_SYSTEM_INSTRUCTION + relevantExamplesText`. -/
def finalInstruction (embedApi : String → Option (List ℚ))
    (sim : List ℚ → List ℚ → ℚ) (store : List SuggestionDoc)
    (message : String) : String :=
  baseSystemInstruction ++ (translateRetrieve embedApi sim store message).2

/-- Claim C6: when the input message cannot be embedded, retrieval
short-circuits to the empty example list and the final instruction is
exactly the base instruction, with no examples section. -/
theorem C6_theorem (embedApi : String → Option (List ℚ))
    (sim : List ℚ → List ℚ → ℚ) (store : List SuggestionDoc)
    (message : String)
    (h : embedText embedApi (some message) = none) :
    translateRetrieve embedApi sim store message = ([], "") ∧
    finalInstruction embedApi sim store message = baseSystemInstruction := by
  unfold finalInstruction translateRetrieve
  rw [h]
  simp

/-- Witness for claim C6: a message whose embedding call fails yields no
examples and the bare base instruction. -/
theorem C6_witness :
    translateRetrieve (fun _ => none) (fun _ _ => 0) [] "x" = ([], "") ∧
    finalInstruction (fun _ => none) (fun _ _ => 0) [] "x" =
      baseSystemInstruction :=
  C6_theorem (fun _ => none) (fun _ _ => 0) [] "x" (by simp [embedText])

/-- A caller-supplied vocabulary override (`VocabularyItem`). -/
structure VocabularyItem where
  original : String
  suggestion : String
  context : Option String
deriving DecidableEq

/-- One numbered line of the user-defined vocabulary section
(`vocabulary.forEach((item, index) => ...)`). -/
def vocabLine (idx : Nat) (item : VocabularyItem) : String :=
  toString (idx + 1) ++ ". For \"" ++ item.original ++ "\", use \"" ++
    item.suggestion ++ "\"." ++
    (match item.context with
     | none => ""
     | some c => if c = "" then "" else " Context: " ++ c) ++ "\n"

/-- The user-defined vocabulary block appended when
`vocabulary.length > 0`, empty otherwise. -/
def vocabularySection (vocab : List VocabularyItem) : String :=
  if 0 < vocab.length then
    "\n\n### USER DEFINED VOCABULARY:\n" ++
      String.join (vocab.enum.map (fun p => vocabLine p.1 p.2))
  else ""

/-- Modelled from the spec: the unified `PromptAssembler.assemble(base,
rankedExamples, vocabularyOverrides)` of spec section 4.4.  The
repository renders the ranked-examples section inside the server's
translate endpoint and the vocabulary section inside
`sendMessageToGemini`, in two separate call paths that are never
composed in one function, so the composition — base instruction, then
ranked examples, then vocabulary overrides — is taken from the spec,
while each section's rendering follows its source. -/
def assemble (base : String) (rankedExamples : List Scored)
    (vocab : List VocabularyItem) : String :=
  base ++ examplesSection rankedExamples ++ vocabularySection vocab

/-- Claim C8: assembling with empty example and vocabulary lists returns
exactly the base instruction; with both non-empty, the result is the
base followed by the ranked-examples section followed by the
vocabulary-overrides section, each present with its header. -/
theorem C8_theorem (base : String) :
    assemble base [] [] = base ∧
    (∀ (ex : List Scored) (vo : List VocabularyItem), ex ≠ [] → vo ≠ [] →
      assemble base ex vo =
        base ++ (examplesSection ex ++ vocabularySection vo) ∧
      (∃ s, examplesSection ex =
          "\n\n### RELEVANT USER-APPROVED EXAMPLES:\n" ++ s) ∧
      (∃ s, vocabularySection vo =
          "\n\n### USER DEFINED VOCABULARY:\n" ++ s)) := by
  constructor
  · simp [assemble, examplesSection, vocabularySection]
  · intro ex vo hex hvo
    refine ⟨String.append_assoc base _ _, ?_, ?_⟩
    · unfold examplesSection
      rw [if_pos (List.length_pos.mpr hex)]
      exact ⟨_, rfl⟩
    · unfold vocabularySection
      rw [if_pos (List.length_pos.mpr hvo)]
      exact ⟨_, rfl⟩

/-- Witness for claim C8 at a concrete base, example and override. -/
theorem C8_witness :
    assemble "BASE" [] [] = "BASE" ∧
    assemble "BASE" [⟨0, "a", "b", "", [], 1⟩] [⟨"x", "y", none⟩] =
      "BASE" ++ (examplesSection [⟨0, "a", "b", "", [], 1⟩] ++
        vocabularySection [⟨"x", "y", none⟩]) :=
  ⟨(C8_theorem ("BASE")).1,
   ((C8_theorem ("BASE")).2 [⟨0, "a", "b", "", [], 1⟩] [⟨"x", "y", none⟩]
      (by simp) (by simp)).1⟩

/-- A pending suggestion document as created by `/api/suggest`:
`{ original, suggestion, context, status: "pending", createdAt }`. -/
structure PendingDoc where
  original : String
  suggestion : String
  context : String
  status : String
  createdAt : Nat
deriving DecidableEq

/-- An approved suggestion document as created by
`/api/approve-suggestion`: the pending fields spread plus the
overridden status and the approval timestamp. -/
structure ApprovedDoc where
  original : String
  suggestion : String
  context : String
  status : String
  createdAt : Nat
  approvedAt : Nat
deriving DecidableEq

/-- The two collections touched by the approval workflow:
`suggestions_pending` (keyed documents) and `suggestions_approved`. -/
structure SuggestStore where
  pending : List (String × PendingDoc)
  approved : List ApprovedDoc
deriving DecidableEq

/-- The NotFound failure of `/api/approve-suggestion` (HTTP 404). -/
inductive ApproveError where
  | notFound
deriving DecidableEq

/-- The spread `{ ...data, status: "approved", approvedAt: Date.now() }`
building the approved copy of a pending document. -/
def promoteDoc (d : PendingDoc) (now : Nat) : ApprovedDoc :=
  { original := d.original, suggestion := d.suggestion,
    context := d.context, status := "approved",
    createdAt := d.createdAt, approvedAt := now }

/-- `/api/approve-suggestion`: look up the pending document by id; on a
miss answer NotFound with the store untouched; on a hit append the
promoted copy to the approved collection and delete the pending
document. -/
def approveSuggestion (store : SuggestStore) (i : String) (now : Nat) :
    Option ApproveError × SuggestStore :=
  match store.pending.find? (fun p => decide (p.1 = i)) with
  | none => (some ApproveError.notFound, store)
  | some pd =>
    (none,
     { pending := store.pending.eraseP (fun p => decide (p.1 = i)),
       approved := store.approved ++ [promoteDoc pd.2 now] })

/-- Claim C9: approving a missing id fails with NotFound and leaves the
store unchanged; approving a present id appends one approved record
copying every pending field plus status `"approved"` and the approval
timestamp, and removes the pending record — under unique pending ids no
pending record with that id remains. -/
theorem C9_theorem (store : SuggestStore) (i : String) (now : Nat) :
    (store.pending.find? (fun p => decide (p.1 = i)) = none →
      approveSuggestion store i now = (some ApproveError.notFound, store)) ∧
    (∀ pd, store.pending.find? (fun p => decide (p.1 = i)) = some pd →
      approveSuggestion store i now =
        (none,
         { pending := store.pending.eraseP (fun p => decide (p.1 = i)),
           approved := store.approved ++ [promoteDoc pd.2 now] }) ∧
      (promoteDoc pd.2 now).original = pd.2.original ∧
      (promoteDoc pd.2 now).suggestion = pd.2.suggestion ∧
      (promoteDoc pd.2 now).context = pd.2.context ∧
      (promoteDoc pd.2 now).createdAt = pd.2.createdAt ∧
      (promoteDoc pd.2 now).status = "approved" ∧
      (promoteDoc pd.2 now).approvedAt = now ∧
      ((store.pending.map Prod.fst).Nodup →
        ∀ q ∈ store.pending.eraseP (fun p => decide (p.1 = i)),
          q.1 ≠ i)) := by
  constructor
  · intro h
    unfold approveSuggestion
    rw [h]
  · intro pd hfind
    refine ⟨?_, rfl, rfl, rfl, rfl, rfl, rfl, ?_⟩
    · unfold approveSuggestion
      rw [hfind]
    · intro hnd q hq hqi
      have hpdmem : pd ∈ store.pending := List.mem_of_find?_eq_some hfind
      have hpdp := List.find?_some hfind
      obtain ⟨a, l₁, l₂, hnp, hpa, hl, he⟩ :=
        @List.exists_of_eraseP (String × PendingDoc)
          (fun p => decide (p.1 = i)) store.pending pd hpdmem hpdp
      rw [he] at hq
      have hai : a.1 = i := by simpa using hpa
      rcases List.mem_append.mp hq with hq1 | hq2
      · have hq1' : ¬ q.1 = i := by simpa using hnp q hq1
        exact hq1' hqi
      · rw [hl] at hnd
        rw [List.map_append, List.map_cons] at hnd
        have hnd2 : (a.1 :: l₂.map Prod.fst).Nodup := hnd.of_append_right
        have hnotin : a.1 ∉ l₂.map Prod.fst := (List.nodup_cons.mp hnd2).1
        refine hnotin ?_
        rw [hai, ← hqi]
        exact List.mem_map_of_mem Prod.fst hq2

/-- Witness for claim C9: approving the only pending record of a
concrete store. -/
theorem C9_witness :
    approveSuggestion
        ⟨[("id1", ⟨"o", "s", "", "pending", 7⟩)], []⟩ "id1" 42 =
      (none,
       { pending :=
           ([("id1", (⟨"o", "s", "", "pending", 7⟩ : PendingDoc))]).eraseP
             (fun p => decide (p.1 = "id1")),
         approved := ([] : List ApprovedDoc) ++
           [promoteDoc ⟨"o", "s", "", "pending", 7⟩ 42] }) :=
  ((C9_theorem ⟨[("id1", ⟨"o", "s", "", "pending", 7⟩)], []⟩ "id1" 42).2
    ("id1", ⟨"o", "s", "", "pending", 7⟩) rfl).1

/-- The `data.embedding && Array.isArray(data.embedding) &&
data.embedding.length > 0` skip test of the reindex sweep. -/
def hasNonemptyEmbedding (d : SuggestionDoc) : Bool :=
  match d.embedding with
  | some (_ :: _) => true
  | _ => false

/-- One loop iteration of `/api/reindex-suggestions` on a document of
the approved snapshot: skip documents that already carry a non-empty
embedding, otherwise embed `data.original` and persist the vector when
one is returned, counting the update. -/
def reindexDoc (embedApi : String → Option (List ℚ)) (d : SuggestionDoc) :
    SuggestionDoc × Bool :=
  if d.status = "approved" then
    if hasNonemptyEmbedding d then (d, false)
    else
      match embedText embedApi d.original with
      | some emb => ({ d with embedding := some emb }, true)
      | none => (d, false)
  else (d, false)

/-- The reindex sweep over the whole store, returning the updated store
and `updatedCount`. -/
def reindexSuggestions (embedApi : String → Option (List ℚ)) :
    List SuggestionDoc → List SuggestionDoc × Nat
  | [] => ([], 0)
  | d :: ds =>
    ((reindexDoc embedApi d).1 :: (reindexSuggestions embedApi ds).1,
     (if (reindexDoc embedApi d).2 then 1 else 0) +
       (reindexSuggestions embedApi ds).2)

theorem reindexDoc_skip (embedApi : String → Option (List ℚ))
    (d : SuggestionDoc) (h : hasNonemptyEmbedding d = true) :
    reindexDoc embedApi d = (d, false) := by
  simp [reindexDoc, h]

theorem reindexDoc_changed (embedApi : String → Option (List ℚ))
    (d : SuggestionDoc) (h : (reindexDoc embedApi d).1 ≠ d) :
    d.status = "approved" ∧ hasNonemptyEmbedding d = false ∧
    (embedText embedApi d.original).isSome = true := by
  unfold reindexDoc at h
  split at h
  case isTrue hs =>
    split at h
    case isTrue hemb => exact absurd rfl h
    case isFalse hemb =>
      cases he : embedText embedApi d.original with
      | some emb =>
        exact ⟨hs, by simpa using hemb, by simp [he]⟩
      | none =>
        rw [he] at h
        exact absurd rfl h
  case isFalse hs => exact absurd rfl h

theorem reindexDoc_counted (embedApi : String → Option (List ℚ))
    (d : SuggestionDoc) :
    (reindexDoc embedApi d).2 =
      decide (d.status = "approved" ∧ hasNonemptyEmbedding d = false ∧
        (embedText embedApi d.original).isSome = true) := by
  unfold reindexDoc
  by_cases hs : d.status = "approved"
  · rw [if_pos hs]
    by_cases he : hasNonemptyEmbedding d = true
    · rw [if_pos he]
      simp [hs, he]
    · rw [if_neg he]
      cases hemb : embedText embedApi d.original with
      | some emb => simp [hs, he, hemb]
      | none => simp [hs, he, hemb]
  · rw [if_neg hs]
    simp [hs]

/-- Claim C10: the reindex sweep leaves every document that already has
a non-empty array embedding entirely unchanged; a document is modified
only when it is approved, lacks such an embedding and the embed call
returns a vector; and `updatedCount` counts exactly those documents. -/
theorem C10_theorem (embedApi : String → Option (List ℚ))
    (store : List SuggestionDoc) :
    List.Forall₂ (fun d d' =>
        (hasNonemptyEmbedding d = true → d' = d) ∧
        (d' ≠ d → d.status = "approved" ∧ hasNonemptyEmbedding d = false ∧
          (embedText embedApi d.original).isSome = true))
      store (reindexSuggestions embedApi store).1 ∧
    (reindexSuggestions embedApi store).2 =
      store.countP (fun d => decide (d.status = "approved" ∧
        hasNonemptyEmbedding d = false ∧
        (embedText embedApi d.original).isSome = true)) := by
  induction store with
  | nil => exact ⟨List.Forall₂.nil, rfl⟩
  | cons d ds ih =>
    obtain ⟨ih1, ih2⟩ := ih
    constructor
    · refine List.Forall₂.cons ⟨?_, ?_⟩ ih1
      · intro hemb
        rw [reindexDoc_skip embedApi d hemb]
      · intro hne
        exact reindexDoc_changed embedApi d hne
    · simp only [reindexSuggestions, List.countP_cons]
      rw [ih2, reindexDoc_counted]
      cases hb : decide (d.status = "approved" ∧
          hasNonemptyEmbedding d = false ∧
          (embedText embedApi d.original).isSome = true) <;> simp [hb]
      all_goals omega

/-- Witness for claim C10: the update count of a concrete sweep over one
already-embedded document, as given by the counting formula. -/
theorem C10_witness :
    (reindexSuggestions (fun _ => some [(2 : ℚ)])
        [⟨0, some "hi", some "yo", none, "approved", some [(1 : ℚ)]⟩]).2 =
      List.countP (fun d => decide (d.status = "approved" ∧
        hasNonemptyEmbedding d = false ∧
        ((embedText (fun _ => some [(2 : ℚ)]) d.original).isSome = true)))
        [⟨0, some "hi", some "yo", none, "approved", some [(1 : ℚ)]⟩] :=
  (C10_theorem (fun _ => some [(2 : ℚ)])
      [⟨0, some "hi", some "yo", none, "approved", some [(1 : ℚ)]⟩]).2
